import Mathlib

/-!
Verification development for the strings dock panel
(`src/widgets/StringsWidget.cpp`): the entry data model, the
filtered/sorted proxy view, and the single-flight asynchronous
refresh coordinator.  Definitions are shallow embeddings of the
corresponding C++ functions; where the behaviour depends on repository
code outside `src/` (the `StringsTask` / `AsyncTaskManager` machinery
and the Qt proxy-model internals), the missing part is modelled from
the specification, as marked in the doc comments.
-/

/-- One row of the strings table, mirroring the `StringDescription`
record (virtual address, displayed text, classification tag, logical
length and byte size). -/
structure StringDescription where
  vaddr : Nat
  string : String
  type : String
  length : Nat
  size : Nat
deriving DecidableEq, Inhabited

namespace StringsModel

/-- Column indices of the table, in the order the model declares them
(`OFFSET, STRING, TYPE, LENGTH, SIZE, COUNT`). -/
def OFFSET : Nat := 0

def STRING : Nat := 1

def TYPE : Nat := 2

def LENGTH : Nat := 3

def SIZE : Nat := 4

def COLUMN_COUNT : Nat := 5

/-- The custom item role under which the model hands out the whole
`StringDescription` payload (`Qt::UserRole`, value `0x0100`). -/
def StringDescriptionRole : Nat := 256

end StringsModel

/-- `Qt::DisplayRole`. -/
def Qt.DisplayRole : Nat := 0

/-- The subset of `QVariant` values the strings model can return:
the invalid (empty) variant, a string, a number, or the whole
entry payload. -/
inductive QVariant where
  | invalid : QVariant
  | str : String → QVariant
  | num : Nat → QVariant
  | entry : StringDescription → QVariant
deriving DecidableEq

/-- `QString::toUpper`, modelled as a per-character uppercase map
over the string's characters. -/
def qToUpper (s : String) : String :=
  String.mk (s.data.map Char.toUpper)

/-- `QString::toLower`, modelled as a per-character lowercase map
over the string's characters. -/
def qToLower (s : String) : String :=
  String.mk (s.data.map Char.toLower)

/-- `QString::operator<`: lexicographic comparison of the code-unit
values of the two strings (case-sensitive). -/
def charListLt : List Char → List Char → Bool
  | _, [] => false
  | [], _ :: _ => true
  | a :: as, b :: bs =>
    decide (a.toNat < b.toNat) || (decide (a = b) && charListLt as bs)

/-- Modelled from the spec: `RAddressString` is an external helper
(`common/Helpers.h`, not under `src/`) that renders a virtual address
for display; its exact text does not matter to any claim. -/
def RAddressString (addr : Nat) : String :=
  "0x" ++ (Nat.toDigits 16 addr).asString

/-- Shallow embedding of `StringsModel::data`: the bounds check
`index.row() >= strings->count()` comes first, then the switch on the
role, then (for the display role) the switch on the column. -/
def StringsModel.data (strings : List StringDescription)
    (row col role : Nat) : QVariant :=
  if h : row < strings.length then
    let str := strings.get ⟨row, h⟩
    if role = Qt.DisplayRole then
      if col = StringsModel.OFFSET then QVariant.str (RAddressString str.vaddr)
      else if col = StringsModel.STRING then QVariant.str str.string
      else if col = StringsModel.TYPE then QVariant.str (qToUpper str.type)
      else if col = StringsModel.LENGTH then QVariant.num str.length
      else if col = StringsModel.SIZE then QVariant.num str.size
      else QVariant.invalid
    else if role = StringsModel.StringDescriptionRole then QVariant.entry str
    else QVariant.invalid
  else QVariant.invalid

/-- Shallow embedding of `StringsSortFilterProxyModel::lessThan`: a
switch on the sort column (in the source's case order `OFFSET, STRING,
TYPE, SIZE, LENGTH`), with the `vaddr` comparison as the fallback for
any other column value. -/
def lessThan (l r : StringDescription) (col : Nat) : Bool :=
  if col = StringsModel.OFFSET then decide (l.vaddr < r.vaddr)
  else if col = StringsModel.STRING then charListLt l.string.data r.string.data
  else if col = StringsModel.TYPE then charListLt l.type.data r.type.data
  else if col = StringsModel.SIZE then decide (l.size < r.size)
  else if col = StringsModel.LENGTH then decide (l.length < r.length)
  else decide (l.vaddr < r.vaddr)

/-- The text together with all of its suffixes, longest first. -/
def tailsOf : List Char → List (List Char)
  | [] => [[]]
  | c :: cs => (c :: cs) :: tailsOf cs

/-- Does the wildcard pattern (first argument; `*` matches any run,
`?` any single character, other characters themselves) match some
front segment of the text (second argument)?  This is the matching
core of the `QRegExp` wildcard filter installed by
`setFilterWildcard`. -/
def wMatchFront : List Char → List Char → Bool
  | [], _ => true
  | p :: ps, t =>
    if p = '*' then (tailsOf t).any fun t2 => wMatchFront ps t2
    else
      match t with
      | [] => false
      | c :: cs => (decide (p = '?') || decide (p = c)) && wMatchFront ps cs

/-- `QString::contains(QRegExp)`: the wildcard pattern matches
starting at some position of the text. -/
def containsWild (p t : List Char) : Bool :=
  (tailsOf t).any fun t2 => wMatchFront p t2

/-- A pattern with neither `*` nor `?` is a plain substring test. -/
def noMeta (p : List Char) : Bool :=
  p.all fun c => !(decide (c = '*')) && !(decide (c = '?'))

/-- Shallow embedding of `StringsSortFilterProxyModel::filterAcceptsRow`:
the row's `string` field is tested against the filter pattern;
the proxy is constructed with `setFilterCaseSensitivity(CaseInsensitive)`,
modelled by folding both sides to lower case. -/
def filterAcceptsRow (pat : String) (e : StringDescription) : Bool :=
  containsWild (pat.data.map Char.toLower) (e.string.data.map Char.toLower)

example : filterAcceptsRow "x" ⟨0, "xyz", "ascii", 3, 3⟩ = true := by decide
example : filterAcceptsRow "X" ⟨0, "xyz", "ascii", 3, 3⟩ = true := by decide
example : filterAcceptsRow "x" ⟨0, "abc", "ascii", 3, 3⟩ = false := by decide
example : filterAcceptsRow "" ⟨0, "abc", "ascii", 3, 3⟩ = true := by decide
example : filterAcceptsRow "a*c" ⟨0, "zabbc", "ascii", 5, 5⟩ = true := by decide
example : filterAcceptsRow "a?c" ⟨0, "zarc", "ascii", 4, 4⟩ = true := by decide
example : lessThan ⟨0, "", "B", 0, 0⟩ ⟨0, "", "a", 0, 0⟩ 2 = true := by decide
example : StringsModel.data [⟨0, "s", "ab", 1, 1⟩] 0 2 0 = QVariant.str "AB" := by decide

/-- The ascending sort relation induced by `lessThan` on a column:
`a` may stay before `b` exactly when the comparator does not order
`b` strictly before `a`. -/
def leRel (col : Nat) (a b : StringDescription) : Prop :=
  lessThan b a col = false

/-- The descending sort relation induced by `lessThan` on a column. -/
def geRel (col : Nat) (a b : StringDescription) : Prop :=
  lessThan a b col = false

instance leRelDec (col : Nat) : DecidableRel (leRel col) :=
  fun a b => inferInstanceAs (Decidable (lessThan b a col = false))

instance geRelDec (col : Nat) : DecidableRel (geRel col) :=
  fun a b => inferInstanceAs (Decidable (lessThan a b col = false))

/-- Modelled from the spec: the proxy view's recomputation algorithm
(the `QSortFilterProxyModel` internals are not under `src/`): keep the
entries accepted by `filterAcceptsRow`, then sort them stably by
`lessThan` on the active column (ascending or descending). -/
def computeProjection (strings : List StringDescription) (pat : String)
    (col : Nat) (asc : Bool) : List StringDescription :=
  let fl := strings.filter fun e => filterAcceptsRow pat e
  if asc then List.insertionSort (leRel col) fl
  else List.insertionSort (geRel col) fl

/-- Modelled from the spec: the state of the filtered/sorted view —
the backing store contents, the active filter pattern, the active sort
column and direction, and the cached projection with its dirty flag
(spec §4.2). -/
structure ViewState where
  strings : List StringDescription
  pattern : String
  sortCol : Nat
  sortAsc : Bool
  cacheProj : List StringDescription
  dirty : Bool
deriving DecidableEq

/-- A clean cache holds exactly the projection of the current store
under the current filter and sort. -/
def ViewInv (s : ViewState) : Prop :=
  s.dirty = false →
    s.cacheProj = computeProjection s.strings s.pattern s.sortCol s.sortAsc

/-- Rebuild the cached projection and clear the dirty flag. -/
def recompute (s : ViewState) : ViewState :=
  { s with
    cacheProj := computeProjection s.strings s.pattern s.sortCol s.sortAsc
    dirty := false }

/-- Force the cache clean: recompute if dirty, otherwise keep it. -/
def forceClean (s : ViewState) : ViewState :=
  if s.dirty then recompute s else s

/-- `row_count()`: force recomputation if dirty, then the length of
the projection. -/
def rowCount (s : ViewState) : Nat :=
  (forceClean s).cacheProj.length

/-- The error surfaced by `row_at` on an out-of-range index (the
model's data lookup answers such a query with the empty variant). -/
inductive RowError where
  | indexOutOfRange : RowError
deriving DecidableEq

/-- `row_at(i)`: force recomputation if dirty, then look the row up in
the projection; an out-of-range index fails with `IndexOutOfRange`
synchronously, everything else returns the projected entry.  The
updated view state is returned alongside. -/
def rowAtS (s : ViewState) (i : Nat) :
    Except RowError StringDescription × ViewState :=
  match (forceClean s).cacheProj[i]? with
  | some e => (Except.ok e, forceClean s)
  | none => (Except.error RowError.indexOutOfRange, forceClean s)

/-- The client-visible mutations of the view: `set_filter`,
`set_sort`, and an atomic store `replace`.  Each marks the view
dirty. -/
inductive ViewOp where
  | setFilter : String → ViewOp
  | setSort : Nat → Bool → ViewOp
  | replace : List StringDescription → ViewOp

def applyOp (s : ViewState) : ViewOp → ViewState
  | ViewOp.setFilter pat => { s with pattern := pat, dirty := true }
  | ViewOp.setSort col asc => { s with sortCol := col, sortAsc := asc, dirty := true }
  | ViewOp.replace new => { s with strings := new, dirty := true }

def applyOps (s : ViewState) (ops : List ViewOp) : ViewState :=
  ops.foldl applyOp s

/-- Modelled from the spec: the refresh coordinator's state
(`StringsTask` and the async task manager are not under `src/`):
the identifiers of the launched-but-not-terminal producer tasks, a
fresh-identifier counter, the store contents with their version, the
log of `replace` calls performed (task id and installed dataset), and
the log of refresh-failed notifications. -/
structure Coord where
  live : List Nat
  nextId : Nat
  store : List StringDescription
  version : Nat
  installs : List (Nat × List StringDescription)
  fails : List Nat
deriving DecidableEq

/-- The events the coordinator reacts to: a refresh request
(`refreshStrings`), a producer delivering its complete result
(`stringSearchFinished`), and a producer failing. -/
inductive CoordEv where
  | request : CoordEv
  | finished : Nat → List StringDescription → CoordEv
  | failed : Nat → CoordEv

/-- Modelled from the spec plus `StringsWidget::refreshStrings` /
`StringsWidget::stringSearchFinished`: a request first waits for any
in-flight task to reach a terminal state — its result, now superseded,
is discarded (spec §5 cancellation) — and then launches a fresh task;
a producer's terminal delivery installs its dataset as one atomic
`replace` only if the task is still the live one; a failure merely
ends the task and records a refresh-failed notification. -/
def stepCoord (s : Coord) : CoordEv → Coord
  | CoordEv.request =>
    { s with live := [s.nextId], nextId := s.nextId + 1 }
  | CoordEv.finished tid r =>
    if tid ∈ s.live then
      { s with
        store := r
        version := s.version + 1
        installs := s.installs ++ [(tid, r)]
        live := s.live.erase tid }
    else s
  | CoordEv.failed tid =>
    if tid ∈ s.live then
      { s with live := s.live.erase tid, fails := s.fails ++ [tid] }
    else s

def runCoord (s : Coord) (evs : List CoordEv) : Coord :=
  evs.foldl stepCoord s

/-- `snapshot()`: the current entry sequence with its version tag. -/
def snapshot (s : Coord) : List StringDescription × Nat :=
  (s.store, s.version)

example :
    computeProjection
      [⟨2, "a", "t", 1, 1⟩, ⟨1, "a", "t", 1, 1⟩] "" StringsModel.STRING true
      = [⟨2, "a", "t", 1, 1⟩, ⟨1, "a", "t", 1, 1⟩] := by decide

example :
    computeProjection
      [⟨2, "b", "t", 1, 1⟩, ⟨1, "a", "t", 1, 1⟩] "" StringsModel.STRING true
      = [⟨1, "a", "t", 1, 1⟩, ⟨2, "b", "t", 1, 1⟩] := by decide

lemma charToNat_inj {a b : Char} (h : a.toNat = b.toNat) : a = b :=
  Char.ext (UInt32.toNat.inj h)

lemma charListLt_asymm : ∀ {a b : List Char},
    charListLt a b = true → charListLt b a = false := by
  intro a b h
  induction a generalizing b with
  | nil =>
    cases b with
    | nil => simp [charListLt] at h
    | cons y ys => simp [charListLt]
  | cons x xs ih =>
    cases b with
    | nil => simp [charListLt] at h
    | cons y ys =>
      simp only [charListLt, Bool.or_eq_true, Bool.and_eq_true,
        decide_eq_true_eq] at h
      simp only [charListLt, Bool.or_eq_false_iff, Bool.and_eq_false_iff,
        decide_eq_false_iff_not]
      rcases h with h | ⟨he, hr⟩
      · refine ⟨Nat.lt_asymm h, Or.inl fun he => ?_⟩
        rw [he] at h
        exact Nat.lt_irrefl _ h
      · subst he
        exact ⟨Nat.lt_irrefl _, Or.inr (ih hr)⟩

lemma charListLt_negtrans : ∀ {a b c : List Char},
    charListLt b a = false → charListLt c b = false → charListLt c a = false := by
  intro a b c h1 h2
  induction a generalizing b c with
  | nil => cases c <;> simp [charListLt]
  | cons x xs ih =>
    cases b with
    | nil => simp [charListLt] at h1
    | cons y ys =>
      cases c with
      | nil => simp [charListLt] at h2
      | cons z zs =>
        simp only [charListLt, Bool.or_eq_false_iff, Bool.and_eq_false_iff,
          decide_eq_false_iff_not] at h1 h2 ⊢
        obtain ⟨hxy, h1r⟩ := h1
        obtain ⟨hyz, h2r⟩ := h2
        have hxy' : x.toNat ≤ y.toNat := Nat.le_of_not_lt hxy
        have hyz' : y.toNat ≤ z.toNat := Nat.le_of_not_lt hyz
        refine ⟨fun hzx => Nat.lt_irrefl _ (Nat.lt_of_lt_of_le hzx (le_trans hxy' hyz')), ?_⟩
        rcases h1r with hne | h1r
        · refine Or.inl fun hzx => hne (charToNat_inj ?_)
          subst hzx
          omega
        · rcases h2r with hne | h2r
          · refine Or.inl fun hzx => hne (charToNat_inj ?_)
            subst hzx
            omega
          · exact Or.inr (ih h1r h2r)

lemma lessThan_asymm (a b : StringDescription) (col : Nat)
    (h : lessThan a b col = true) : lessThan b a col = false := by
  unfold lessThan at h ⊢
  split_ifs at h ⊢ <;>
    first
      | (simp only [decide_eq_true_eq] at h
         simp only [decide_eq_false_iff_not]
         omega)
      | exact charListLt_asymm h

lemma lessThan_negtrans (a b c : StringDescription) (col : Nat)
    (h1 : lessThan b a col = false) (h2 : lessThan c b col = false) :
    lessThan c a col = false := by
  unfold lessThan at h1 h2 ⊢
  split_ifs at h1 h2 ⊢ <;>
    first
      | (simp only [decide_eq_false_iff_not] at h1 h2 ⊢
         omega)
      | exact charListLt_negtrans h1 h2

instance leRelTotal (col : Nat) : IsTotal StringDescription (leRel col) where
  total a b := by
    unfold leRel
    cases hb : lessThan b a col with
    | false => exact Or.inl rfl
    | true => exact Or.inr (lessThan_asymm b a col hb)

instance leRelTrans (col : Nat) : IsTrans StringDescription (leRel col) where
  trans a b c h1 h2 := lessThan_negtrans a b c col h1 h2

instance geRelTotal (col : Nat) : IsTotal StringDescription (geRel col) where
  total a b := by
    unfold geRel
    cases hb : lessThan a b col with
    | false => exact Or.inl rfl
    | true => exact Or.inr (lessThan_asymm a b col hb)

instance geRelTrans (col : Nat) : IsTrans StringDescription (geRel col) where
  trans a b c h1 h2 := lessThan_negtrans c b a col h2 h1

lemma computeProjection_true (strings : List StringDescription) (pat : String)
    (col : Nat) :
    computeProjection strings pat col true
      = List.insertionSort (leRel col)
          (strings.filter fun e => filterAcceptsRow pat e) := rfl

lemma computeProjection_false (strings : List StringDescription) (pat : String)
    (col : Nat) :
    computeProjection strings pat col false
      = List.insertionSort (geRel col)
          (strings.filter fun e => filterAcceptsRow pat e) := rfl

lemma computeProjection_perm (strings : List StringDescription) (pat : String)
    (col : Nat) (asc : Bool) :
    (computeProjection strings pat col asc).Perm
      (strings.filter fun e => filterAcceptsRow pat e) := by
  cases asc
  · rw [computeProjection_false]
    exact List.perm_insertionSort _ _
  · rw [computeProjection_true]
    exact List.perm_insertionSort _ _

lemma computeProjection_length (strings : List StringDescription) (pat : String)
    (col : Nat) (asc : Bool) :
    (computeProjection strings pat col asc).length
      = (strings.filter fun e => filterAcceptsRow pat e).length :=
  (computeProjection_perm strings pat col asc).length_eq

lemma computeProjection_sorted (strings : List StringDescription) (pat : String)
    (col : Nat) :
    List.Pairwise (leRel col) (computeProjection strings pat col true) := by
  rw [computeProjection_true]
  exact List.sorted_insertionSort (leRel col) _

lemma forceClean_strings (s : ViewState) : (forceClean s).strings = s.strings := by
  unfold forceClean recompute
  split <;> rfl

lemma forceClean_pattern (s : ViewState) : (forceClean s).pattern = s.pattern := by
  unfold forceClean recompute
  split <;> rfl

lemma forceClean_sortCol (s : ViewState) : (forceClean s).sortCol = s.sortCol := by
  unfold forceClean recompute
  split <;> rfl

lemma forceClean_sortAsc (s : ViewState) : (forceClean s).sortAsc = s.sortAsc := by
  unfold forceClean recompute
  split <;> rfl

lemma forceClean_dirty (s : ViewState) : (forceClean s).dirty = false := by
  unfold forceClean recompute
  split
  · rfl
  · rename_i h
    exact Bool.eq_false_iff.mpr h

lemma forceClean_of_clean (s : ViewState) (h : s.dirty = false) :
    forceClean s = s := by
  unfold forceClean
  rw [h]
  rfl

lemma forceClean_idem (s : ViewState) : forceClean (forceClean s) = forceClean s :=
  forceClean_of_clean _ (forceClean_dirty s)

lemma forceClean_cache (s : ViewState) (h : ViewInv s) :
    (forceClean s).cacheProj
      = computeProjection s.strings s.pattern s.sortCol s.sortAsc := by
  unfold forceClean
  by_cases hd : s.dirty = true
  · rw [if_pos hd]
    rfl
  · rw [if_neg hd]
    exact h (Bool.not_eq_true _ |>.mp hd)

lemma viewInv_applyOp (s : ViewState) (op : ViewOp) : ViewInv (applyOp s op) := by
  cases op <;> (intro h; simp [applyOp] at h)

lemma viewInv_applyOps (s : ViewState) (h : ViewInv s) (ops : List ViewOp) :
    ViewInv (applyOps s ops) := by
  induction ops generalizing s with
  | nil => exact h
  | cons op rest ih => exact ih (applyOp s op) (viewInv_applyOp s op)

lemma rowCount_eq (s : ViewState) (h : ViewInv s) :
    rowCount s = (s.strings.filter fun e => filterAcceptsRow s.pattern e).length := by
  unfold rowCount
  rw [forceClean_cache s h, computeProjection_length]

lemma rowAtS_state (s : ViewState) (i : Nat) : (rowAtS s i).2 = forceClean s := by
  unfold rowAtS
  cases h : (forceClean s).cacheProj[i]? <;> simp [h]

lemma rowAtS_ok (s : ViewState) (i : Nat)
    (h : i < (forceClean s).cacheProj.length) :
    (rowAtS s i).1 = Except.ok ((forceClean s).cacheProj.get ⟨i, h⟩) := by
  unfold rowAtS
  rw [List.getElem?_eq_getElem h]
  simp [List.get_eq_getElem]

lemma rowAtS_err (s : ViewState) (i : Nat)
    (h : (forceClean s).cacheProj.length ≤ i) :
    (rowAtS s i).1 = Except.error RowError.indexOutOfRange := by
  unfold rowAtS
  rw [List.getElem?_eq_none h]

lemma stepCoord_live (s : Coord) (e : CoordEv) (h : s.live.length ≤ 1) :
    (stepCoord s e).live.length ≤ 1 := by
  cases e with
  | request => simp [stepCoord]
  | finished tid r =>
    simp only [stepCoord]
    split
    · exact le_trans (List.length_erase_le _ _) h
    · exact h
  | failed tid =>
    simp only [stepCoord]
    split
    · exact le_trans (List.length_erase_le _ _) h
    · exact h

lemma runCoord_live : ∀ (evs : List CoordEv) (s : Coord),
    s.live.length ≤ 1 → (runCoord s evs).live.length ≤ 1 := by
  intro evs
  induction evs with
  | nil => exact fun s h => h
  | cons e rest ih => exact fun s h => ih (stepCoord s e) (stepCoord_live s e h)

lemma stepCoord_store (s : Coord) (e : CoordEv) :
    (stepCoord s e).store = s.store
      ∨ ∃ tid r, e = CoordEv.finished tid r ∧ (stepCoord s e).store = r := by
  cases e with
  | request => exact Or.inl rfl
  | finished tid r =>
    simp only [stepCoord]
    split
    · exact Or.inr ⟨tid, r, rfl, rfl⟩
    · exact Or.inl rfl
  | failed tid =>
    simp only [stepCoord]
    split
    · exact Or.inl rfl
    · exact Or.inl rfl

lemma runCoord_store : ∀ (evs : List CoordEv) (s : Coord),
    (runCoord s evs).store = s.store
      ∨ ∃ tid r, CoordEv.finished tid r ∈ evs ∧ (runCoord s evs).store = r := by
  intro evs
  induction evs with
  | nil => exact fun s => Or.inl rfl
  | cons e rest ih =>
    intro s
    have hrun : runCoord s (e :: rest) = runCoord (stepCoord s e) rest := rfl
    rcases ih (stepCoord s e) with h | ⟨tid, r, hm, hs⟩
    · rcases stepCoord_store s e with h2 | ⟨tid, r, he, hs⟩
      · exact Or.inl (by rw [hrun, h, h2])
      · exact Or.inr ⟨tid, r, by rw [he]; exact List.mem_cons_self _ _,
          by rw [hrun, h, hs]⟩
    · exact Or.inr ⟨tid, r, List.mem_cons_of_mem _ hm, by rw [hrun, hs]⟩

lemma mem_tailsOf : ∀ (t t2 : List Char), t2 ∈ tailsOf t ↔ ∃ l, t = l ++ t2 := by
  intro t
  induction t with
  | nil =>
    intro t2
    simp only [tailsOf, List.mem_singleton]
    constructor
    · rintro rfl
      exact ⟨[], rfl⟩
    · rintro ⟨l, hl⟩
      rcases List.append_eq_nil.mp hl.symm with ⟨-, h2⟩
      exact h2
  | cons c cs ih =>
    intro t2
    simp only [tailsOf, List.mem_cons, ih]
    constructor
    · rintro (rfl | ⟨l, rfl⟩)
      · exact ⟨[], rfl⟩
      · exact ⟨c :: l, rfl⟩
    · rintro ⟨l, hl⟩
      cases l with
      | nil => exact Or.inl (by simpa using hl.symm)
      | cons x xs =>
        rw [List.cons_append] at hl
        exact Or.inr ⟨xs, (List.cons.injEq _ _ _ _).mp hl |>.2⟩

lemma wMatchFront_noMeta : ∀ (p t : List Char), noMeta p = true →
    (wMatchFront p t = true ↔ ∃ r, t = p ++ r) := by
  intro p
  induction p with
  | nil =>
    intro t _
    simp [wMatchFront]
  | cons c ps ih =>
    intro t hnm
    simp only [noMeta, List.all_cons, Bool.and_eq_true, Bool.not_eq_true',
      decide_eq_false_iff_not] at hnm
    obtain ⟨⟨hstar, hq⟩, hps⟩ := hnm
    have hps' : noMeta ps = true := hps
    simp only [wMatchFront, if_neg hstar]
    cases t with
    | nil =>
      simp only [List.cons_append]
      constructor
      · intro h
        exact absurd h (by simp)
      · rintro ⟨r, hr⟩
        exact absurd hr (by simp)
    | cons d ds =>
      simp only [Bool.or_eq_true, Bool.and_eq_true, decide_eq_true_eq, ih ds hps',
        List.cons_append]
      constructor
      · rintro ⟨(hq' | rfl), r, rfl⟩
        · exact absurd hq' hq
        · exact ⟨r, rfl⟩
      · rintro ⟨r, hr⟩
        obtain ⟨rfl, rfl⟩ := (List.cons.injEq _ _ _ _).mp hr
        exact ⟨Or.inr rfl, r, rfl⟩

lemma containsWild_noMeta (p t : List Char) (hnm : noMeta p = true) :
    (containsWild p t = true ↔ ∃ l r, t = l ++ p ++ r) := by
  unfold containsWild
  rw [List.any_eq_true]
  constructor
  · rintro ⟨t2, ht2, hm⟩
    obtain ⟨l, rfl⟩ := (mem_tailsOf t t2).mp ht2
    obtain ⟨r, rfl⟩ := (wMatchFront_noMeta p t2 hnm).mp hm
    exact ⟨l, r, by rw [List.append_assoc]⟩
  · rintro ⟨l, r, rfl⟩
    refine ⟨p ++ r, (mem_tailsOf _ _).mpr ⟨l, by rw [List.append_assoc]⟩, ?_⟩
    exact (wMatchFront_noMeta p _ hnm).mpr ⟨r, rfl⟩

/-- C1: the refresh coordinator is single-flight — along any event
trace at most one producer task is ever live — and when two refreshes
are requested in rapid succession (the second superseding the first),
exactly one store replacement occurs, installing the second request's
producer result; the superseded first result, arriving late, is
discarded and never installed. -/
theorem c1_single_flight_second_wins :
    (∀ (evs : List CoordEv) (s : Coord), s.live.length ≤ 1 →
      (runCoord s evs).live.length ≤ 1)
    ∧ ∀ (s : Coord) (r1 r2 : List StringDescription), s.live = [] →
        runCoord s [CoordEv.request, CoordEv.request,
            CoordEv.finished (s.nextId + 1) r2, CoordEv.finished s.nextId r1]
          = { s with
              live := []
              nextId := s.nextId + 2
              store := r2
              version := s.version + 1
              installs := s.installs ++ [(s.nextId + 1, r2)] } := by
  refine ⟨fun evs s h => runCoord_live evs s h, ?_⟩
  intro s r1 r2 h
  simp [runCoord, List.foldl, stepCoord]

/-- Witness for C1 at a concrete idle coordinator: the second
request's result is the one installed, and a lone request leaves at
most one live task. -/
theorem c1_witness :
    (runCoord ⟨[], 0, [], 0, [], []⟩ [CoordEv.request, CoordEv.request,
        CoordEv.finished 1 [⟨1, "b", "t", 1, 1⟩],
        CoordEv.finished 0 [⟨0, "a", "t", 1, 1⟩]]).store
      = [⟨1, "b", "t", 1, 1⟩]
    ∧ (runCoord ⟨[], 0, [], 0, [], []⟩ [CoordEv.request]).live.length ≤ 1 := by
  constructor
  · rw [c1_single_flight_second_wins.2 ⟨[], 0, [], 0, [], []⟩
      [⟨0, "a", "t", 1, 1⟩] [⟨1, "b", "t", 1, 1⟩] rfl]
  · exact c1_single_flight_second_wins.1 [CoordEv.request] ⟨[], 0, [], 0, [], []⟩
      (by decide)

/-- C2 (amended): for adjacent entries returned by the view under any
active sort column the active comparator never orders the later entry
strictly before the earlier one, and the projection is a permutation
of the filtered backing entries; entries that compare equal keep the
backing-sequence order (the sort is stable) — the view does not fall
back to ordering ties by address. -/
theorem c2_adjacent_order :
    ∀ (strings : List StringDescription) (pat : String) (col : Nat),
      List.Chain' (fun a b => lessThan b a col = false)
        (computeProjection strings pat col true)
      ∧ (computeProjection strings pat col true).Perm
          (strings.filter fun e => filterAcceptsRow pat e) :=
  fun strings pat col =>
    ⟨List.Pairwise.chain' (computeProjection_sorted strings pat col),
     computeProjection_perm strings pat col true⟩

/-- Counterexample for C2 as stated: two entries with equal text but
descending addresses stay in backing order when sorted on the string
column, so comparator-equal adjacent entries are not ordered by
ascending address. -/
theorem c2_counterexample :
    computeProjection [⟨2, "a", "t", 1, 1⟩, ⟨1, "a", "t", 1, 1⟩] ""
        StringsModel.STRING true
      = [⟨2, "a", "t", 1, 1⟩, ⟨1, "a", "t", 1, 1⟩]
    ∧ lessThan ⟨2, "a", "t", 1, 1⟩ ⟨1, "a", "t", 1, 1⟩ StringsModel.STRING = false
    ∧ lessThan ⟨1, "a", "t", 1, 1⟩ ⟨2, "a", "t", 1, 1⟩ StringsModel.STRING = false
    ∧ ¬ (⟨2, "a", "t", 1, 1⟩ : StringDescription).vaddr
        ≤ (⟨1, "a", "t", 1, 1⟩ : StringDescription).vaddr := by decide

/-- C3: `row_at` surfaces `IndexOutOfRange` synchronously for any
index at or beyond the row count, returns the entry at position `i` of
the projection otherwise, and never mutates the store; at the model
layer an out-of-range row lookup answers every query with the empty
variant. -/
theorem c3_row_at :
    ∀ (s : ViewState) (i : Nat),
      (rowCount s ≤ i → (rowAtS s i).1 = Except.error RowError.indexOutOfRange)
      ∧ (∀ h : i < rowCount s,
          (rowAtS s i).1 = Except.ok ((forceClean s).cacheProj.get ⟨i, h⟩))
      ∧ (rowAtS s i).2.strings = s.strings
      ∧ (∀ (row col role : Nat), s.strings.length ≤ row →
          StringsModel.data s.strings row col role = QVariant.invalid) := by
  intro s i
  refine ⟨fun h => rowAtS_err s i h, fun h => rowAtS_ok s i h, ?_, ?_⟩
  · rw [rowAtS_state]
    exact forceClean_strings s
  · intro row col role hrow
    unfold StringsModel.data
    rw [dif_neg (by omega)]

/-- Witness for C3 at a concrete one-entry view: index 5 fails with
the out-of-range error, index 0 returns the single entry, and the
model lookup for row 7 is empty. -/
theorem c3_witness :
    (rowAtS ⟨[⟨0, "a", "t", 1, 1⟩], "", 0, true, [], true⟩ 5).1
      = Except.error RowError.indexOutOfRange
    ∧ (rowAtS ⟨[⟨0, "a", "t", 1, 1⟩], "", 0, true, [], true⟩ 0).1
      = Except.ok ⟨0, "a", "t", 1, 1⟩
    ∧ StringsModel.data [⟨0, "a", "t", 1, 1⟩] 7 0 0 = QVariant.invalid := by
  refine ⟨(c3_row_at ⟨[⟨0, "a", "t", 1, 1⟩], "", 0, true, [], true⟩ 5).1 (by decide),
    ?_,
    (c3_row_at ⟨[⟨0, "a", "t", 1, 1⟩], "", 0, true, [], true⟩ 5).2.2.2 7 0 0
      (by decide)⟩
  rw [(c3_row_at ⟨[⟨0, "a", "t", 1, 1⟩], "", 0, true, [], true⟩ 0).2.1 (by decide)]
  rfl

/-- C4: the filter accepts exactly the rows whose text matches the
pattern — acceptance depends only on the `string` field, and for a
pattern free of wildcard metacharacters it is precisely the
case-insensitive substring test — and after any sequence of
`set_filter`/`set_sort`/`replace` operations the row count equals the
number of stored entries satisfying the current predicate and never
exceeds the store's size. -/
theorem c4_filter_rowcount :
    ∀ (s : ViewState), ViewInv s → ∀ (ops : List ViewOp),
      rowCount (applyOps s ops)
        = ((applyOps s ops).strings.filter
            fun e => filterAcceptsRow (applyOps s ops).pattern e).length
      ∧ rowCount (applyOps s ops) ≤ (applyOps s ops).strings.length
      ∧ (∀ (pat : String) (e1 e2 : StringDescription), e1.string = e2.string →
          filterAcceptsRow pat e1 = filterAcceptsRow pat e2)
      ∧ (∀ (pat : String) (e : StringDescription),
          noMeta (pat.data.map Char.toLower) = true →
            (filterAcceptsRow pat e = true ↔
              ∃ l r, e.string.data.map Char.toLower
                = l ++ pat.data.map Char.toLower ++ r)) := by
  intro s hInv ops
  have hInv2 := viewInv_applyOps s hInv ops
  refine ⟨rowCount_eq _ hInv2, ?_, ?_, ?_⟩
  · rw [rowCount_eq _ hInv2]
    exact List.length_filter_le _ _
  · intro pat e1 e2 he
    unfold filterAcceptsRow
    rw [he]
  · intro pat e hnm
    exact containsWild_noMeta _ _ hnm

/-- Witness for C4 on the spec's concrete scenario: filtering
`[abc, xyz]` with pattern `x` leaves one row, and the pattern is the
case-insensitive substring test on the text. -/
theorem c4_witness :
    rowCount (applyOps
        ⟨[⟨16, "abc", "a", 3, 3⟩, ⟨32, "xyz", "a", 3, 3⟩], "", 0, true, [], true⟩
        [ViewOp.setFilter "x"]) = 1
    ∧ (filterAcceptsRow "x" ⟨32, "xyz", "a", 3, 3⟩ = true ↔
        ∃ l r, "xyz".data.map Char.toLower = l ++ "x".data.map Char.toLower ++ r) := by
  have h := c4_filter_rowcount
    ⟨[⟨16, "abc", "a", 3, 3⟩, ⟨32, "xyz", "a", 3, 3⟩], "", 0, true, [], true⟩
    (fun hd => Bool.noConfusion hd) [ViewOp.setFilter "x"]
  refine ⟨?_, h.2.2.2 "x" ⟨32, "xyz", "a", 3, 3⟩ (by decide)⟩
  rw [h.1]
  decide

/-- C5: on producer failure the coordinator drops back to idle without
any `replace` call: the store, its version and the install log are
untouched (the displayed dataset stays the last successful one) and a
refresh-failed notification is recorded for the view client instead of
an error on the calling path. -/
theorem c5_producer_failed_keeps_store :
    ∀ (s : Coord) (tid : Nat), s.live = [tid] →
      stepCoord s (CoordEv.failed tid)
        = { s with live := [], fails := s.fails ++ [tid] } := by
  intro s tid h
  simp [stepCoord, h]

/-- Witness for C5 at a concrete coordinator with one live task. -/
theorem c5_witness :
    stepCoord ⟨[4], 5, [⟨0, "a", "t", 1, 1⟩], 3, [], []⟩ (CoordEv.failed 4)
      = ⟨[], 5, [⟨0, "a", "t", 1, 1⟩], 3, [], [4]⟩ :=
  c5_producer_failed_keeps_store ⟨[4], 5, [⟨0, "a", "t", 1, 1⟩], 3, [], []⟩ 4 rfl

/-- C6: replacement is all-or-nothing — after any event trace the
snapshot of the store is either the initial complete dataset or the
complete dataset delivered by one producer, never a sequence mixing
entries of two datasets. -/
theorem c6_snapshot_atomic :
    ∀ (s : Coord) (evs : List CoordEv),
      (snapshot (runCoord s evs)).1 = s.store
        ∨ ∃ tid r, CoordEv.finished tid r ∈ evs
            ∧ (snapshot (runCoord s evs)).1 = r :=
  fun s evs => runCoord_store evs s

/-- C7: the type tag is displayed uppercased but sorted by the raw
case-sensitive code-unit comparison: the display value of the type
column is `toUpper` of the tag, the type-column comparator is the raw
comparison of the tags, and the two orders genuinely differ (`"B"`
sorts before `"a"` raw, while the displayed forms `"B"`/`"A"` order
the other way). -/
theorem c7_type_display_vs_sort :
    (∀ (strings : List StringDescription) (row : Nat) (h : row < strings.length),
      StringsModel.data strings row StringsModel.TYPE Qt.DisplayRole
        = QVariant.str (qToUpper (strings.get ⟨row, h⟩).type))
    ∧ (∀ l r : StringDescription,
        lessThan l r StringsModel.TYPE = charListLt l.type.data r.type.data)
    ∧ lessThan ⟨0, "", "B", 0, 0⟩ ⟨0, "", "a", 0, 0⟩ StringsModel.TYPE = true
    ∧ charListLt (qToUpper "B").data (qToUpper "a").data = false := by
  refine ⟨?_, fun l r => rfl, by decide, by decide⟩
  intro strings row h
  unfold StringsModel.data
  rw [dif_pos h]
  rfl

/-- Witness for C7 at a concrete one-entry list. -/
theorem c7_witness :
    StringsModel.data [⟨0, "s", "ab", 1, 1⟩] 0 StringsModel.TYPE Qt.DisplayRole
      = QVariant.str (qToUpper "ab") := by
  rw [c7_type_display_vs_sort.1 [⟨0, "s", "ab", 1, 1⟩] 0 (by decide)]
  rfl

/-- C8: the read path is idempotent and side-effect free on the
dataset — two successive `row_at` calls at the same index with no
intervening mutation return identical results and leave the view in
the same state, and the store contents are never changed by a read. -/
theorem c8_row_at_idempotent :
    ∀ (s : ViewState) (i : Nat),
      (rowAtS ((rowAtS s i).2) i).1 = (rowAtS s i).1
      ∧ (rowAtS ((rowAtS s i).2) i).2 = (rowAtS s i).2
      ∧ (rowAtS s i).2.strings = s.strings := by
  intro s i
  have h2 : (rowAtS s i).2 = forceClean s := rowAtS_state s i
  have hx : rowAtS (forceClean s) i = rowAtS s i := by
    unfold rowAtS
    rw [forceClean_idem]
  rw [h2, hx]
  exact ⟨rfl, h2, forceClean_strings s⟩

/-- C9 (amended): the model's data lookup is total: a row index at or
beyond the entry count yields the empty variant, a display-role query
for a column outside the five known ones yields the empty variant, and
a role that is neither the display role nor the entry-payload role
yields the empty variant; an entry-payload query with a valid row,
however, returns the entry whatever the column. -/
theorem c9_data_total :
    ∀ (strings : List StringDescription) (row col role : Nat),
      (strings.length ≤ row →
        StringsModel.data strings row col role = QVariant.invalid)
      ∧ (role = Qt.DisplayRole → StringsModel.COLUMN_COUNT ≤ col →
          StringsModel.data strings row col role = QVariant.invalid)
      ∧ (role ≠ Qt.DisplayRole → role ≠ StringsModel.StringDescriptionRole →
          StringsModel.data strings row col role = QVariant.invalid) := by
  intro strings row col role
  refine ⟨fun h => ?_, fun hrole hcol => ?_, fun h1 h2 => ?_⟩
  · unfold StringsModel.data
    rw [dif_neg (by omega)]
  · simp only [StringsModel.COLUMN_COUNT] at hcol
    have hc0 : col ≠ 0 := by omega
    have hc1 : col ≠ 1 := by omega
    have hc2 : col ≠ 2 := by omega
    have hc3 : col ≠ 3 := by omega
    have hc4 : col ≠ 4 := by omega
    simp [StringsModel.data, StringsModel.OFFSET, StringsModel.STRING,
      StringsModel.TYPE, StringsModel.LENGTH, StringsModel.SIZE,
      hrole, hc0, hc1, hc2, hc3, hc4]
  · simp [StringsModel.data, h1, h2]

/-- Witness for C9 (amended) at concrete out-of-range, unknown-column
and unknown-role queries. -/
theorem c9_witness :
    StringsModel.data [⟨0, "s", "t", 1, 1⟩] 3 0 0 = QVariant.invalid
    ∧ StringsModel.data [⟨0, "s", "t", 1, 1⟩] 0 9 0 = QVariant.invalid
    ∧ StringsModel.data [⟨0, "s", "t", 1, 1⟩] 0 0 7 = QVariant.invalid :=
  ⟨(c9_data_total [⟨0, "s", "t", 1, 1⟩] 3 0 0).1 (by decide),
   (c9_data_total [⟨0, "s", "t", 1, 1⟩] 0 9 0).2.1 rfl (by decide),
   (c9_data_total [⟨0, "s", "t", 1, 1⟩] 0 0 7).2.2 (by decide) (by decide)⟩

/-- Counterexample for C9 as stated: a query with a column outside the
five known ones but carrying the entry-payload role returns the whole
entry, not an empty value. -/
theorem c9_counterexample :
    StringsModel.data [⟨0, "s", "t", 1, 1⟩] 0 StringsModel.COLUMN_COUNT
        StringsModel.StringDescriptionRole
      = QVariant.entry ⟨0, "s", "t", 1, 1⟩
    ∧ QVariant.entry ⟨0, "s", "t", 1, 1⟩ ≠ QVariant.invalid := by decide

/-- C10: comparing two entries under a sort column that is not one of
the five known columns falls back to the ascending address comparison,
so the comparator yields a definite ordering for every column value
and every pair of entries. -/
theorem c10_unknown_column_fallback :
    ∀ (col : Nat), StringsModel.COLUMN_COUNT ≤ col →
      ∀ l r : StringDescription, lessThan l r col = decide (l.vaddr < r.vaddr) := by
  intro col h l r
  simp only [StringsModel.COLUMN_COUNT] at h
  unfold lessThan
  rw [if_neg (by simp only [StringsModel.OFFSET]; omega),
    if_neg (by simp only [StringsModel.STRING]; omega),
    if_neg (by simp only [StringsModel.TYPE]; omega),
    if_neg (by simp only [StringsModel.SIZE]; omega),
    if_neg (by simp only [StringsModel.LENGTH]; omega)]

/-- Witness for C10 at the concrete unknown column 7. -/
theorem c10_witness :
    lessThan ⟨3, "", "", 0, 0⟩ ⟨9, "", "", 0, 0⟩ 7 = true := by
  rw [c10_unknown_column_fallback 7 (by decide) ⟨3, "", "", 0, 0⟩ ⟨9, "", "", 0, 0⟩]
  decide
